import Mathlib

/-!
Verification of the Python AST parser front-end (`pkg/parser/ast_parser.py`).

The file shallowly embeds the core of `ast_parser.py`: the value normalizer
(`get_value_type`, `extract_value`), the two tree walkers (`extract_imports`,
`extract_calls`, both driven by the breadth-first `ast.walk`), and the result
assembler (`parse_python_code`).  The external front-end `ast.parse` is an
external collaborator (the Python standard library); it is modelled as a
parameter producing either a `Module` tree or a structured syntax fault.

Modelling conventions:
- Python values that can appear as `ast.Constant` payloads are modelled by
  `PyConst` (strings, ints, bools, None, and a catch-all `cother` for byte
  strings, ellipses, floats and other shapes the extractor maps to
  "unknown"); that `bool` is a subclass of `int` in Python is reflected in
  `py_isinstance_int_or_float`.
- JSON-ish runtime values (the payloads stored in the output dictionaries)
  are modelled by `PyVal`; a typed value dictionary
  `{"type": t, "value": v}` is the pair `TV := String × PyVal`.
- Python dictionaries are modelled as insertion-ordered association lists
  with overwrite-on-duplicate semantics (`pyDictInsert`, `pyInsert`), and
  key equality is structural (`pyValEq`).  Hashing a `list` or `dict` key
  raises `TypeError` in Python; `hashable` captures exactly that, and the
  raised exception is modelled with the `Except` monad (`PyExc` carries the
  exception class name and message, as read by `type(e).__name__` and
  `str(e)` in the generic handler of `parse_python_code`).
- Key presence versus null value in the result dictionaries is tracked
  explicitly: `resultKeys` transcribes the literal key sets of the success
  and failure dictionaries, and `error_value` returns `none` exactly when
  the `"error"` key holds Python `None`.
-/

namespace AstParser

/-- Python constant payloads as found on `ast.Constant` nodes. `cother`
stands for any constant the extractor does not classify (bytes, Ellipsis,
complex, floats are folded in with ints via `py_isinstance_int_or_float`). -/
inductive PyConst where
  | cnone
  | cbool (b : Bool)
  | cstr (s : String)
  | cint (n : Int)
  | cother
deriving DecidableEq

/-- Runtime values stored in the output structures: the payloads of typed
value dictionaries.  `plist` holds a list of typed values; `pdict` holds an
insertion-ordered mapping from key payloads to typed values, exactly as the
dict comprehension in `extract_value` builds it. -/
inductive PyVal where
  | pnone
  | pbool (b : Bool)
  | pstr (s : String)
  | pint (n : Int)
  | pother
  | plist (xs : List (String × PyVal))
  | pdict (entries : List (PyVal × String × PyVal))

/-- A typed value `{"type": ..., "value": ...}` as returned by
`extract_value`. -/
abbrev TV := String × PyVal

/-- A raised Python exception, as observed by the generic handler in
`parse_python_code`: the class name (`type(e).__name__`) and the message
(`str(e)`). -/
structure PyExc where
  ename : String
  emsg : String
deriving DecidableEq

mutual
/-- Structural equality on runtime values, standing in for Python `==` on
dictionary keys.  (Only hashable, scalar keys ever reach a dictionary in
this code, since unhashable keys raise first.) -/
def pyValEq : PyVal → PyVal → Bool
  | .pnone, .pnone => true
  | .pbool a, .pbool b => a == b
  | .pstr a, .pstr b => a == b
  | .pint a, .pint b => a == b
  | .pother, .pother => true
  | .plist xs, .plist ys => tvListEq xs ys
  | .pdict xs, .pdict ys => entryListEq xs ys
  | _, _ => false
termination_by a _ => sizeOf a

def tvListEq : List TV → List TV → Bool
  | [], [] => true
  | (t1, v1) :: xs, (t2, v2) :: ys => t1 == t2 && pyValEq v1 v2 && tvListEq xs ys
  | _, _ => false
termination_by xs _ => sizeOf xs

def entryListEq : List (PyVal × TV) → List (PyVal × TV) → Bool
  | [], [] => true
  | (k1, t1, v1) :: xs, (k2, t2, v2) :: ys =>
    pyValEq k1 k2 && (t1 == t2) && pyValEq v1 v2 && entryListEq xs ys
  | _, _ => false
termination_by xs _ => sizeOf xs
end

/-- Hashability of a runtime value: Python lists and dicts are unhashable,
every other payload produced by `extract_value` (None, bools, strings,
numbers and the opaque `pother`) is hashable. -/
def hashable : PyVal → Bool
  | .plist _ => false
  | .pdict _ => false
  | _ => true

/-- Python type name of an unhashable payload, used to render the
`TypeError` message text. -/
def py_type_name : PyVal → String
  | .plist _ => "list"
  | .pdict _ => "dict"
  | _ => "object"

/-- Insertion into a Python dictionary keyed by runtime values: a duplicate
key keeps its position and gets the new value, a fresh key is appended. -/
def pyDictInsert (m : List (PyVal × TV)) (k : PyVal) (v : TV) : List (PyVal × TV) :=
  if m.any (fun p => pyValEq p.1 k) then
    m.map (fun p => if pyValEq p.1 k then (k, v) else p)
  else m ++ [(k, v)]

/-- Python `value is None` for a constant payload. -/
def py_is_none : PyConst → Bool
  | .cnone => true
  | _ => false

/-- Python `isinstance(value, bool)`. -/
def py_isinstance_bool : PyConst → Bool
  | .cbool _ => true
  | _ => false

/-- Python `isinstance(value, str)`. -/
def py_isinstance_str : PyConst → Bool
  | .cstr _ => true
  | _ => false

/-- Python `isinstance(value, (int, float))`.  `bool` is a subclass of
`int` in Python, so boolean payloads satisfy this check as well — the
reason `get_value_type` must test `bool` first. -/
def py_isinstance_int_or_float : PyConst → Bool
  | .cbool _ => true
  | .cint _ => true
  | _ => false

/-- Embeds `get_value_type` (ast_parser.py lines 15-34): maps a Python
constant payload to an Infrar type tag via the same if/elif chain. -/
def get_value_type (value : PyConst) : String :=
  if py_is_none value then "none"
  else if py_isinstance_bool value then "bool"
  else if py_isinstance_str value then "string"
  else if py_isinstance_int_or_float value then "number"
  else "unknown"

/-- Payload carried over unchanged from a constant node into the typed
value dictionary (the `"value": node.value` field). -/
def constToVal : PyConst → PyVal
  | .cnone => .pnone
  | .cbool b => .pbool b
  | .cstr s => .pstr s
  | .cint n => .pint n
  | .cother => .pother

/-- Python AST expression nodes, restricted to the shapes `ast_parser.py`
distinguishes.  `Other` is the catch-all for every further expression kind
(tuples, binary operations, comprehensions, ...) with its expression
children, which the walker still descends into.  `DictLit` keys may be
`none`: a `**`-expansion inside a dict display has a `None` key in the
`ast.Dict.keys` list.  `Call` carries the source position of the node, read by
`extract_calls`. -/
inductive Expr where
  | Constant (v : PyConst)
  | Str (s : String)
  | Num (n : Int)
  | NameConstant (v : PyConst)
  | Name (id : String)
  | Attribute (value : Expr) (attr : String)
  | Call (func : Expr) (args : List Expr) (keywords : List (Option String × Expr))
      (lineno : Nat) (col_offset : Nat)
  | ListLit (elts : List Expr)
  | DictLit (keys : List (Option Expr)) (values : List Expr)
  | Other (children : List Expr)

mutual
/-- Embeds `extract_value` (ast_parser.py lines 37-71) together with its
two comprehension loops.  The dict comprehension evaluates key, then value,
then inserts — hashing the key at insertion time, which raises `TypeError`
for list/dict payloads; that exception is the `Except.error` case.  A
`None` entry in `ast.Dict.keys` reaches the final `else` branch of
`extract_value` and yields the "unknown" record. -/
def extract_value : Expr → Except PyExc TV
  | .Constant v => .ok ⟨get_value_type v, constToVal v⟩
  | .Str s => .ok ⟨"string", .pstr s⟩
  | .Num n => .ok ⟨"number", .pstr (toString n)⟩
  | .NameConstant v => .ok ⟨get_value_type v, constToVal v⟩
  | .Name id => .ok ⟨"variable", .pstr id⟩
  | .ListLit elts =>
    match extract_value_list elts with
    | .ok vs => .ok ⟨"list", .plist vs⟩
    | .error exc => .error exc
  | .DictLit keys values =>
    match extract_dict_items keys values [] with
    | .ok items => .ok ⟨"dict", .pdict items⟩
    | .error exc => .error exc
  | .Attribute _ _ => .ok ⟨"unknown", .pnone⟩
  | .Call _ _ _ _ _ => .ok ⟨"unknown", .pnone⟩
  | .Other _ => .ok ⟨"unknown", .pnone⟩
termination_by e => sizeOf e

def extract_value_list : List Expr → Except PyExc (List TV)
  | [] => .ok []
  | e :: es =>
    match extract_value e with
    | .error exc => .error exc
    | .ok v =>
      match extract_value_list es with
      | .error exc => .error exc
      | .ok vs => .ok (v :: vs)
termination_by es => sizeOf es

def extract_dict_items : List (Option Expr) → List Expr → List (PyVal × TV) →
    Except PyExc (List (PyVal × TV))
  | [], _, acc => .ok acc
  | _ :: _, [], acc => .ok acc
  | k? :: ks, v :: vs, acc =>
    match (match k? with
           | none => Except.ok (⟨"unknown", PyVal.pnone⟩ : TV)
           | some k => extract_value k) with
    | .error exc => .error exc
    | .ok kv =>
      match extract_value v with
      | .error exc => .error exc
      | .ok vv =>
        if hashable kv.2 then
          extract_dict_items ks vs (pyDictInsert acc kv.2 vv)
        else
          .error ⟨"TypeError", "unhashable type: " ++ py_type_name kv.2⟩
termination_by ks vs _ => sizeOf ks + sizeOf vs
end

/-- Python AST statement nodes as `ast_parser.py` distinguishes them:
plain imports, from-imports, expression statements, and a catch-all
`OtherStmt` for every further statement kind (assignments, function
definitions, conditionals, ...) holding its statement and expression
children so the walker can descend.  Import names are `(name, asname)`
pairs mirroring `ast.alias`; a from-import with no explicit module (a pure
relative import) has `module = none`. -/
inductive Stmt where
  | Import (names : List (String × Option String)) (lineno : Nat)
  | ImportFrom (module : Option String) (names : List (String × Option String)) (lineno : Nat)
  | ExprStmt (e : Expr)
  | OtherStmt (body : List Stmt) (exprs : List Expr)

/-- A parsed module: `ast.Module` with its `body` list of statements. -/
structure Module where
  body : List Stmt

/-- A node of the generic tree enumerated by `ast.walk`: a statement, an
expression, or an `ast.keyword` wrapper (the child holding a keyword
argument value inside a call). -/
inductive Node where
  | ofStmt (s : Stmt)
  | ofExpr (e : Expr)
  | ofKeyword (kw : Option String × Expr)

mutual
/-- Weight of an expression, the termination measure for the walk. -/
def exprSize : Expr → Nat
  | .Constant _ => 1
  | .Str _ => 1
  | .Num _ => 1
  | .NameConstant _ => 1
  | .Name _ => 1
  | .Attribute v _ => 1 + exprSize v
  | .Call f args kws _ _ => 1 + exprSize f + exprListSize args + kwListSize kws
  | .ListLit elts => 1 + exprListSize elts
  | .DictLit keys values => 1 + keyListSize keys + exprListSize values
  | .Other children => 1 + exprListSize children
termination_by e => sizeOf e

/-- Weight of an expression list. -/
def exprListSize : List Expr → Nat
  | [] => 0
  | e :: es => 1 + exprSize e + exprListSize es
termination_by es => sizeOf es

/-- Weight of a dictionary key list (`None` keys weigh one). -/
def keyListSize : List (Option Expr) → Nat
  | [] => 0
  | none :: ks => 1 + keyListSize ks
  | some k :: ks => 1 + exprSize k + keyListSize ks
termination_by ks => sizeOf ks

/-- Weight of a keyword argument list. -/
def kwListSize : List (Option String × Expr) → Nat
  | [] => 0
  | (_, e) :: ks => 1 + exprSize e + kwListSize ks
termination_by ks => sizeOf ks
end

mutual
/-- Weight of a statement. -/
def stmtSize : Stmt → Nat
  | .Import _ _ => 1
  | .ImportFrom _ _ _ => 1
  | .ExprStmt e => 1 + exprSize e
  | .OtherStmt body exprs => 1 + stmtListSize body + exprListSize exprs
termination_by s => sizeOf s

/-- Weight of a statement list. -/
def stmtListSize : List Stmt → Nat
  | [] => 0
  | s :: ss => 1 + stmtSize s + stmtListSize ss
termination_by ss => sizeOf ss
end

/-- Weight of a walked node. -/
def nodeSize : Node → Nat
  | .ofStmt s => stmtSize s
  | .ofExpr e => exprSize e
  | .ofKeyword kw => 1 + exprSize kw.2

/-- Total weight of a worklist of nodes. -/
def nodesSize : List Node → Nat
  | [] => 0
  | n :: q => nodeSize n + nodesSize q

/-- Children of an expression node in the order `ast.iter_child_nodes`
yields them (field order; `None` entries of `ast.Dict.keys` are skipped). -/
def exprChildren : Expr → List Node
  | .Constant _ => []
  | .Str _ => []
  | .Num _ => []
  | .NameConstant _ => []
  | .Name _ => []
  | .Attribute v _ => [.ofExpr v]
  | .Call f args kws _ _ => .ofExpr f :: (args.map .ofExpr ++ kws.map .ofKeyword)
  | .ListLit elts => elts.map .ofExpr
  | .DictLit keys values => (keys.filterMap id).map .ofExpr ++ values.map .ofExpr
  | .Other children => children.map .ofExpr

/-- Children of a statement node.  (`ast.alias` children of import
statements carry no further structure and match no extractor pattern, so
they are omitted from the worklist.) -/
def stmtChildren : Stmt → List Node
  | .Import _ _ => []
  | .ImportFrom _ _ _ => []
  | .ExprStmt e => [.ofExpr e]
  | .OtherStmt body exprs => body.map .ofStmt ++ exprs.map .ofExpr

/-- Children of a generic tree node. -/
def nodeChildren : Node → List Node
  | .ofStmt s => stmtChildren s
  | .ofExpr e => exprChildren e
  | .ofKeyword kw => [.ofExpr kw.2]

/-- Termination helper: `nodesSize` distributes over append. -/
def nodesSize_append : ∀ a b : List Node, nodesSize (a ++ b) = nodesSize a + nodesSize b := by
  intro a b
  induction a with
  | nil => simp [nodesSize]
  | cons n a ih => simp [nodesSize, ih]; omega

/-- Termination helper: wrapping expressions as nodes weighs no more than
the expression list. -/
def nodesSize_map_ofExpr_le : ∀ es : List Expr, nodesSize (es.map Node.ofExpr) ≤ exprListSize es := by
  intro es
  induction es with
  | nil => simp [nodesSize, exprListSize]
  | cons e es ih => simp [nodesSize, exprListSize, nodeSize]; omega

/-- Termination helper: wrapping statements as nodes weighs no more than
the statement list. -/
def nodesSize_map_ofStmt_le : ∀ ss : List Stmt, nodesSize (ss.map Node.ofStmt) ≤ stmtListSize ss := by
  intro ss
  induction ss with
  | nil => simp [nodesSize, stmtListSize]
  | cons s ss ih => simp [nodesSize, stmtListSize, nodeSize]; omega

/-- Termination helper: wrapping keyword entries as nodes weighs no more
than the keyword list. -/
def nodesSize_map_ofKeyword_le :
    ∀ kws : List (Option String × Expr), nodesSize (kws.map Node.ofKeyword) ≤ kwListSize kws := by
  intro kws
  induction kws with
  | nil => simp [nodesSize, kwListSize]
  | cons kw kws ih =>
    cases kw with
    | mk k e => simp [nodesSize, kwListSize, nodeSize]; omega

/-- Termination helper: the non-`None` dictionary keys weigh no more than
the key list. -/
def nodesSize_keys_le :
    ∀ keys : List (Option Expr), nodesSize ((keys.filterMap id).map Node.ofExpr) ≤ keyListSize keys := by
  intro keys
  induction keys with
  | nil => simp [nodesSize, keyListSize]
  | cons k? keys ih =>
    cases k? with
    | none => simp [List.filterMap_cons, keyListSize]; omega
    | some k => simp [List.filterMap_cons, nodesSize, keyListSize, nodeSize]; omega

/-- Termination helper: the children of a node weigh strictly less than
the node itself. -/
def nodeChildren_size_lt : ∀ n : Node, nodesSize (nodeChildren n) < nodeSize n := by
  intro n
  cases n with
  | ofStmt s =>
    cases s with
    | Import names lineno => simp [nodeChildren, stmtChildren, nodesSize, nodeSize, stmtSize]
    | ImportFrom m names lineno => simp [nodeChildren, stmtChildren, nodesSize, nodeSize, stmtSize]
    | ExprStmt e => simp [nodeChildren, stmtChildren, nodesSize, nodeSize, stmtSize]
    | OtherStmt body exprs =>
      have h1 := nodesSize_map_ofStmt_le body
      have h2 := nodesSize_map_ofExpr_le exprs
      simp [nodeChildren, stmtChildren, nodesSize_append, nodeSize, stmtSize]; omega
  | ofExpr e =>
    cases e with
    | Constant v => simp [nodeChildren, exprChildren, nodesSize, nodeSize, exprSize]
    | Str s => simp [nodeChildren, exprChildren, nodesSize, nodeSize, exprSize]
    | Num n => simp [nodeChildren, exprChildren, nodesSize, nodeSize, exprSize]
    | NameConstant v => simp [nodeChildren, exprChildren, nodesSize, nodeSize, exprSize]
    | Name id => simp [nodeChildren, exprChildren, nodesSize, nodeSize, exprSize]
    | Attribute v attr => simp [nodeChildren, exprChildren, nodesSize, nodeSize, exprSize]
    | Call f args kws lineno col =>
      have h1 := nodesSize_map_ofExpr_le args
      have h2 := nodesSize_map_ofKeyword_le kws
      simp [nodeChildren, exprChildren, nodesSize, nodesSize_append, nodeSize, exprSize]; omega
    | ListLit elts =>
      have h1 := nodesSize_map_ofExpr_le elts
      simp [nodeChildren, exprChildren, nodeSize, exprSize]; omega
    | DictLit keys values =>
      have h1 := nodesSize_keys_le keys
      have h2 := nodesSize_map_ofExpr_le values
      simp [nodeChildren, exprChildren, nodesSize_append, nodeSize, exprSize]; omega
    | Other children =>
      have h1 := nodesSize_map_ofExpr_le children
      simp [nodeChildren, exprChildren, nodeSize, exprSize]; omega
  | ofKeyword kw => simp [nodeChildren, nodesSize, nodeSize]

/-- Embeds `ast.walk`: breadth-first enumeration using a FIFO worklist (a
`collections.deque`; each popped node is yielded and its children
appended). -/
def walkNodes : List Node → List Node
  | [] => []
  | n :: rest => n :: walkNodes (rest ++ nodeChildren n)
termination_by q => nodesSize q
decreasing_by
  simp [nodesSize, nodesSize_append]
  have := nodeChildren_size_lt n
  omega

/-- Document-order enumeration of the nodes of a module, as `ast.walk(tree)`
produces it.  The `ast.Module` node itself, which `ast.walk` yields first,
matches no extractor pattern and is omitted; the walk starts from the
statements of the module. -/
def walk (tree : Module) : List Node :=
  walkNodes (tree.body.map Node.ofStmt)

/-- One extracted import statement (ast_parser.py lines 79-96); `alias_`
models the `"alias"` key of the emitted dictionary (`alias` is reserved in
Lean). -/
structure ImportRecord where
  module : String
  names : List String
  alias_ : String
  lineno : Nat
deriving DecidableEq

/-- Import records contributed by one walked node: one record per alias of
a plain `import` (with `alias = alias.asname or ""`), exactly one record
per `from ... import ...` statement (with `module = node.module or ""` and
per-symbol aliases dropped), nothing for any other node. -/
def importsOfNode : Node → List ImportRecord
  | .ofStmt (.Import names lineno) =>
    names.map (fun al => ⟨al.1, [al.1], al.2.getD "", lineno⟩)
  | .ofStmt (.ImportFrom m names lineno) =>
    [⟨m.getD "", names.map Prod.fst, "", lineno⟩]
  | _ => []

/-- Embeds `extract_imports` (ast_parser.py lines 74-98): walks every node
and appends import records in document order. -/
def extract_imports (tree : Module) : List ImportRecord :=
  (walk tree).foldr (fun n acc => importsOfNode n ++ acc) []

/-- Embeds the while-loop of ast_parser.py lines 126-130: peels the chain
of attribute accesses off an expression, returning the attribute names in
root-to-leaf order (the loop builds this order with `parts.insert(0, ...)`)
together with the root expression the loop stops at. -/
def moduleChain : Expr → List String × Expr
  | .Attribute v attr => ((moduleChain v).1 ++ [attr], (moduleChain v).2)
  | e => ([], e)

/-- Embeds the callee resolution of `extract_calls` (ast_parser.py lines
116-133): a bare identifier gives `function = id` and no module; an
attribute access gives `function = attr` and, when the chain root is a
plain identifier, `module` is the dot-joined names before the final one;
any other callee leaves both fields `None`. -/
def resolve_callee : Expr → Option String × Option String
  | .Name id => (some id, none)
  | .Attribute v attr =>
    match moduleChain v with
    | (parts, .Name id) => (some attr, some (String.intercalate "." (id :: parts)))
    | (_, _) => (some attr, none)
  | _ => (none, none)

/-- Insertion into the Python `arguments` dictionary (string-or-`None`
keys): a duplicate key keeps its position and gets the new value, a fresh
key is appended. -/
def pyInsert (m : List (Option String × TV)) (k : Option String) (v : TV) :
    List (Option String × TV) :=
  if m.any (fun p => p.1 == k) then
    m.map (fun p => if p.1 == k then (k, v) else p)
  else m ++ [(k, v)]

/-- Embeds the positional-argument loop of `extract_calls` (ast_parser.py
lines 137-138): `arguments[f"arg_{i}"] = extract_value(arg)` for each
positional argument, with `i` counting from 0. -/
def add_positional : List (Option String × TV) → Nat → List Expr →
    Except PyExc (List (Option String × TV))
  | acc, _, [] => .ok acc
  | acc, i, a :: rest =>
    match extract_value a with
    | .error exc => .error exc
    | .ok v => add_positional (pyInsert acc (some ("arg_" ++ toString i)) v) (i + 1) rest

/-- Embeds the keyword-argument loop of `extract_calls` (ast_parser.py
lines 141-142): `arguments[keyword.arg] = extract_value(keyword.value)`;
`keyword.arg` is `None` for a `**`-expansion. -/
def add_keywords : List (Option String × TV) → List (Option String × Expr) →
    Except PyExc (List (Option String × TV))
  | acc, [] => .ok acc
  | acc, (k, e) :: rest =>
    match extract_value e with
    | .error exc => .error exc
    | .ok v => add_keywords (pyInsert acc k v) rest

/-- The full `arguments` dictionary of one call: positional entries first,
then keyword entries, in the shared mapping the code uses. -/
def build_arguments (args : List Expr) (keywords : List (Option String × Expr)) :
    Except PyExc (List (Option String × TV)) :=
  match add_positional [] 0 args with
  | .error exc => .error exc
  | .ok m => add_keywords m keywords

/-- One extracted call expression (the `call_info` dictionary of
ast_parser.py lines 107-148).  `source_code = none` models the key being
absent when the line number of the call falls outside the source lines. -/
structure CallInfo where
  lineno : Nat
  col_offset : Nat
  function : Option String
  module : Option String
  arguments : List (Option String × TV)
  source_code : Option String

/-- Python `str.strip()`: drop leading and trailing whitespace. -/
def py_strip (s : String) : String :=
  ⟨((s.data.dropWhile Char.isWhitespace).reverse.dropWhile Char.isWhitespace).reverse⟩

/-- Builds the record for one call node: callee resolution, argument
extraction (which can raise), and best-effort source line capture
(`source_lines[lineno - 1].strip()` guarded by `0 <= lineno - 1 <
len(source_lines)` on Python integers). -/
def call_record (func : Expr) (args : List Expr) (keywords : List (Option String × Expr))
    (lineno col_offset : Nat) (source_lines : List String) : Except PyExc CallInfo :=
  match build_arguments args keywords with
  | .error exc => .error exc
  | .ok arguments =>
    .ok { lineno := lineno
          col_offset := col_offset
          function := (resolve_callee func).1
          module := (resolve_callee func).2
          arguments := arguments
          source_code :=
            if 1 ≤ lineno ∧ lineno - 1 < source_lines.length then
              some (py_strip (source_lines.getD (lineno - 1) ""))
            else none }

/-- The collection loop of `extract_calls`: every `ast.Call` node in walk
order appends its record; a raised exception aborts the whole extraction. -/
def calls_from (source_lines : List String) : List Node → List CallInfo →
    Except PyExc (List CallInfo)
  | [], acc => .ok acc
  | n :: rest, acc =>
    match n with
    | .ofExpr (.Call func args keywords lineno col_offset) =>
      match call_record func args keywords lineno col_offset source_lines with
      | .error exc => .error exc
      | .ok ci => calls_from source_lines rest (acc ++ [ci])
    | _ => calls_from source_lines rest acc

/-- Embeds `extract_calls` (ast_parser.py lines 101-150). -/
def extract_calls (tree : Module) (source_lines : List String) :
    Except PyExc (List CallInfo) :=
  calls_from source_lines (walk tree) []

/-- A grammar fault reported by the external front-end (`ast.parse`
raising `SyntaxError`): rendered message, 1-based line, offset, and the
offending source text. -/
structure SyntaxErr where
  msg : String
  lineno : Nat
  offset : Nat
  text : String

/-- The `"error"` sub-dictionary of the failure envelope.  The syntax
shape carries `lineno`/`offset`/`text` (modelled `some _`); the generic
extraction-fault shape omits those keys entirely (modelled `none`). -/
structure ErrorInfo where
  type : String
  message : String
  lineno : Option Nat
  offset : Option Nat
  text : Option String
deriving DecidableEq

/-- Payload of the success envelope (ast_parser.py lines 167-174), minus
the constant `success`/`error` fields tracked by the envelope shape. -/
structure SuccessData where
  language : String
  imports : List ImportRecord
  calls : List CallInfo
  source_code : String

/-- The two mutually exclusive envelope shapes `parse_python_code`
returns: the success dictionary or one of the failure dictionaries. -/
inductive PResult where
  | success (d : SuccessData)
  | failure (e : ErrorInfo)

/-- Embeds `parse_python_code` (ast_parser.py lines 153-196).  The
external front-end is passed in as `parse`.  On success the envelope
carries the language tag, both extractions, the unmodified source text
(and `"error": None`); a front-end `SyntaxError` produces the failure
envelope with the fault data; any exception raised during extraction
(the `TypeError` of unhashable dictionary keys) produces the failure
envelope with the exception class name and message only. -/
def parse_python_code (parse : String → Except SyntaxErr Module) (source_code : String) :
    PResult :=
  match parse source_code with
  | .ok tree =>
    match extract_calls tree (source_code.splitOn "\n") with
    | .ok calls => .success ⟨"python", extract_imports tree, calls, source_code⟩
    | .error exc => .failure ⟨exc.ename, exc.emsg, none, none, none⟩
  | .error e => .failure ⟨"SyntaxError", e.msg, some e.lineno, some e.offset, some e.text⟩

/-- Keys literally present in the returned dictionary, transcribed from
the two dictionary literals (ast_parser.py lines 167-174 and 179-196):
the success envelope lists all six keys (`error` among them, bound to
`None`); both failure envelopes list only `success` and `error`. -/
def resultKeys : PResult → List String
  | .success _ => ["language", "imports", "calls", "source_code", "success", "error"]
  | .failure _ => ["success", "error"]

/-- The boolean `"success"` field of the envelope. -/
def success_flag : PResult → Bool
  | .success _ => true
  | .failure _ => false

/-- The value of the `"error"` key: `none` models Python `None` (the
value in the success envelope), `some e` the populated error dictionary. -/
def error_value : PResult → Option ErrorInfo
  | .success _ => none
  | .failure e => some e

/-- The `error.type` field, when an error dictionary is present. -/
def error_type : PResult → Option String :=
  fun r => (error_value r).map ErrorInfo.type

/-- The true/false test of a call node, as `isinstance(node, ast.Call)`. -/
def isCallNode : Node → Bool
  | .ofExpr (.Call _ _ _ _ _) => true
  | _ => false

/-- An attribute chain `root.m1.m2...mk.last` as an expression, for
stating the callee-resolution property over chains of any length. -/
def mkChain (root : Expr) (mids : List String) (last : String) : Expr :=
  .Attribute (mids.foldl .Attribute root) last

/-- The positional entries `arg_i -> value` that the positional loop adds,
for a value assignment `vg`, starting at index `i`. -/
def positional_entries (vg : Expr → TV) : Nat → List Expr → List (Option String × TV)
  | _, [] => []
  | i, a :: rest => (some ("arg_" ++ toString i), vg a) :: positional_entries vg (i + 1) rest

/-- The keys of the positional entries, starting at index `i`. -/
def posKeys : Nat → List Expr → List (Option String)
  | _, [] => []
  | i, _ :: rest => some ("arg_" ++ toString i) :: posKeys (i + 1) rest

/-- The keyword entries `key -> value` that the keyword loop adds, for a
value assignment `vf`. -/
def keyword_entries (vf : Option String × Expr → TV) (kws : List (Option String × Expr)) :
    List (Option String × TV) :=
  kws.map (fun p => (p.1, vf p))

/-- AST of the one-line program `f({[]: 2})`: a call whose argument is a
dictionary literal keyed by a list literal.  The program is syntactically
valid Python (`ast.parse` accepts it), but normalizing the dictionary
raises a TypeError for the unhashable list key. -/
def dictKeyCallTree : Module :=
  ⟨[.ExprStmt (.Call (.Name "f")
      [.DictLit [some (.ListLit [])] [.Constant (.cint 2)]] [] 1 0)]⟩

/-- Front-end behaviour on `f({[]: 2})`: the parse succeeds with
`dictKeyCallTree`. -/
def dictKeyCallParse : String → Except SyntaxErr Module :=
  fun _ => .ok dictKeyCallTree

/-- Front-end behaviour on the empty program: an empty module. -/
def emptyParse : String → Except SyntaxErr Module :=
  fun _ => .ok ⟨[]⟩

/-- Front-end behaviour on the malformed program `x =`: a syntax fault on
line 1. -/
def invalidParse : String → Except SyntaxErr Module :=
  fun _ => .error ⟨"invalid syntax", 1, 3, "x ="⟩

/-- AST of `from pkg.storage import upload, download` (scenario A). -/
def scenarioATree : Module :=
  ⟨[.ImportFrom (some "pkg.storage") [("upload", none), ("download", none)] 1]⟩

/-- AST of the one-line program `f(g(1))` (scenario E): a call nested in
the arguments of another call. -/
def nestedCallTree : Module :=
  ⟨[.ExprStmt (.Call (.Name "f")
      [.Call (.Name "g") [.Constant (.cint 1)] [] 1 2] [] 1 0)]⟩

/-- AST of the one-line program `f(1, arg_0=2)`: a keyword argument whose
name collides with the key generated for the first positional argument. -/
def collidingKwTree : Module :=
  ⟨[.ExprStmt (.Call (.Name "f")
      [.Constant (.cint 1)] [(some "arg_0", .Constant (.cint 2))] 1 0)]⟩

/-- AST of the one-line program `f(**kw)`: a call with a double-starred
argument (keyword entry with a `None` name). -/
def doubleStarTree : Module :=
  ⟨[.ExprStmt (.Call (.Name "f") [] [(none, .Name "kw")] 1 0)]⟩

example : extract_value (.DictLit [some (.ListLit [])] [.Constant (.cint 2)]) =
    .error ⟨"TypeError", "unhashable type: list"⟩ := by
  simp [extract_value, extract_dict_items, extract_value_list, hashable, py_type_name]

example : extract_calls nestedCallTree ["f(g(1))"] = .ok
    [⟨1, 0, some "f", none, [(some "arg_0", ("unknown", .pnone))], some "f(g(1))"⟩,
     ⟨1, 2, some "g", none, [(some "arg_0", ("number", .pint 1))], some "f(g(1))"⟩] := by
  simp [extract_calls, walk, walkNodes, nodeChildren, exprChildren, stmtChildren,
    nestedCallTree, calls_from, call_record, build_arguments, add_positional, add_keywords,
    pyInsert, extract_value, resolve_callee, moduleChain, get_value_type, constToVal]
  decide

example : parse_python_code dictKeyCallParse "f({[]: 2})" =
    .failure ⟨"TypeError", "unhashable type: list", none, none, none⟩ := by
  simp [parse_python_code, dictKeyCallParse, dictKeyCallTree, extract_calls, walk, walkNodes,
    nodeChildren, exprChildren, stmtChildren, calls_from, call_record, build_arguments,
    add_positional, add_keywords, pyInsert, extract_value, extract_dict_items,
    extract_value_list, hashable, py_type_name]

/-- Callee shapes that are neither a bare identifier nor an attribute
access (for example, the result of another call). -/
def notNameOrAttribute : Expr → Bool
  | .Name _ => false
  | .Attribute _ _ => false
  | _ => true

/-- Lookup in the `arguments` dictionary. -/
def pyLookup (m : List (Option String × TV)) (k : Option String) : Option TV :=
  (m.find? (fun p => p.1 == k)).map Prod.snd

/-- The single call record extracted from `f(1, arg_0=2)`: the keyword
named `arg_0` has overwritten the entry of the first positional argument. -/
def collidingKwRecord : CallInfo :=
  ⟨1, 0, some "f", none, [(some "arg_0", ("number", .pint 2))], some "f(1, arg_0=2)"⟩

/-- C4: a boolean literal always normalizes to kind "bool" (with the
boolean itself as payload) and never to kind "number": `get_value_type`
tests the boolean class before the numeric one, even though boolean
payloads satisfy the numeric `isinstance` check (`bool` is a subclass of
`int` in the source grammar). -/
theorem c4_bool_never_number : ∀ b : Bool,
    get_value_type (.cbool b) = "bool" ∧
    get_value_type (.cbool b) ≠ "number" ∧
    py_isinstance_int_or_float (.cbool b) = true ∧
    extract_value (.Constant (.cbool b)) = .ok ("bool", .pbool b) ∧
    extract_value (.NameConstant (.cbool b)) = .ok ("bool", .pbool b) := by
  intro b
  refine ⟨?_, ?_, ?_, ?_, ?_⟩ <;>
    simp [get_value_type, py_is_none, py_isinstance_bool, py_isinstance_int_or_float,
      extract_value, constToVal]

/-- C7: whenever the result is a failure envelope, the keys `imports`,
`calls`, `source_code` and `language` are entirely absent from it — only
`success` and `error` are present — so no partial extraction results are
ever returned. -/
theorem c7_failure_envelope_no_partials : ∀ parse src,
    success_flag (parse_python_code parse src) = false →
    "imports" ∉ resultKeys (parse_python_code parse src) ∧
    "calls" ∉ resultKeys (parse_python_code parse src) ∧
    "source_code" ∉ resultKeys (parse_python_code parse src) ∧
    "language" ∉ resultKeys (parse_python_code parse src) ∧
    resultKeys (parse_python_code parse src) = ["success", "error"] := by
  intro parse src h
  cases hres : parse_python_code parse src with
  | success d => rw [hres] at h; simp [success_flag] at h
  | failure e => simp [resultKeys]

/-- C7 witness: the failure envelope of the malformed program `x =` has
exactly the keys `success` and `error`. -/
theorem c7_witness :
    "imports" ∉ resultKeys (parse_python_code invalidParse "x =") ∧
    "calls" ∉ resultKeys (parse_python_code invalidParse "x =") ∧
    "source_code" ∉ resultKeys (parse_python_code invalidParse "x =") ∧
    "language" ∉ resultKeys (parse_python_code invalidParse "x =") ∧
    resultKeys (parse_python_code invalidParse "x =") = ["success", "error"] :=
  c7_failure_envelope_no_partials invalidParse "x ="
    (by simp [parse_python_code, invalidParse, success_flag])

/-- C2 counterexample: on the malformed program `x =` the failure
envelope carries `error.type = "SyntaxError"` (the exception class name
of the front-end), not the string `"SyntaxFault"` the claim requires. -/
theorem c2_counterexample_type_name :
    error_type (parse_python_code invalidParse "x =") = some "SyntaxError" ∧
    error_type (parse_python_code invalidParse "x =") ≠ some "SyntaxFault" := by
  refine ⟨?_, ?_⟩ <;> simp [parse_python_code, invalidParse, error_type, error_value]

/-- C2 amended: for every input the front-end reports a grammar fault on,
the result is the failure envelope with `success = false` and
`error.type = "SyntaxError"`, carrying the fault message, line, offset and
offending source text. -/
theorem c2_syntax_fault_envelope : ∀ parse src e,
    parse src = .error e →
    parse_python_code parse src =
      .failure ⟨"SyntaxError", e.msg, some e.lineno, some e.offset, some e.text⟩ ∧
    success_flag (parse_python_code parse src) = false := by
  intro parse src e h
  simp [parse_python_code, h, success_flag]

/-- C2 witness: the malformed program `x =` produces the full syntax
failure envelope. -/
theorem c2_witness :
    parse_python_code invalidParse "x =" =
      .failure ⟨"SyntaxError", "invalid syntax", some 1, some 3, some "x ="⟩ ∧
    success_flag (parse_python_code invalidParse "x =") = false :=
  c2_syntax_fault_envelope invalidParse "x =" ⟨"invalid syntax", 1, 3, "x ="⟩ rfl

/-- C1 counterexample: the program `f({[]: 2})` is syntactically valid
(the front-end parses it into `dictKeyCallTree`), yet the result is the
failure envelope of an extraction-time `TypeError`, with
`success = false` — refuting the claim that every syntactically valid
input yields the success envelope. -/
theorem c1_counterexample_valid_input_failure :
    dictKeyCallParse "f({[]: 2})" = .ok dictKeyCallTree ∧
    parse_python_code dictKeyCallParse "f({[]: 2})" =
      .failure ⟨"TypeError", "unhashable type: list", none, none, none⟩ ∧
    success_flag (parse_python_code dictKeyCallParse "f({[]: 2})") = false := by
  refine ⟨rfl, ?_, ?_⟩ <;>
    simp [parse_python_code, dictKeyCallParse, dictKeyCallTree, extract_calls, walk, walkNodes,
      nodeChildren, exprChildren, stmtChildren, calls_from, call_record, build_arguments,
      add_positional, add_keywords, pyInsert, extract_value, extract_dict_items,
      extract_value_list, hashable, py_type_name, success_flag]

/-- C1 amended: for every syntactically valid input whose argument
extraction raises no fault, the result is the success envelope — success
true, language the fixed grammar identifier `"python"`, sourceCode the
input byte-for-byte, imports and calls the extracted sequences — and the
`error` key is present with a null value (not absent). -/
theorem c1_success_envelope : ∀ parse src tree calls,
    parse src = .ok tree →
    extract_calls tree (src.splitOn "\n") = .ok calls →
    parse_python_code parse src = .success ⟨"python", extract_imports tree, calls, src⟩ ∧
    success_flag (parse_python_code parse src) = true ∧
    "error" ∈ resultKeys (parse_python_code parse src) ∧
    error_value (parse_python_code parse src) = none := by
  intro parse src tree calls h1 h2
  simp [parse_python_code, h1, h2, success_flag, resultKeys, error_value]

/-- C1 witness: the empty program yields the success envelope with no
imports or calls, the original text, and a null `error` value. -/
theorem c1_witness :
    parse_python_code emptyParse "" = .success ⟨"python", extract_imports ⟨[]⟩, [], ""⟩ ∧
    success_flag (parse_python_code emptyParse "") = true ∧
    "error" ∈ resultKeys (parse_python_code emptyParse "") ∧
    error_value (parse_python_code emptyParse "") = none :=
  c1_success_envelope emptyParse "" ⟨[]⟩ [] rfl
    (by simp [extract_calls, walk, walkNodes, calls_from])

/-- The while-loop characterization: peeling a chain built by folding
attribute accesses onto a root appends the fold names to the chain of the
root. -/
theorem moduleChain_foldl : ∀ (mids : List String) (e : Expr),
    moduleChain (mids.foldl Expr.Attribute e) =
      ((moduleChain e).1 ++ mids, (moduleChain e).2) := by
  intro mids
  induction mids with
  | nil => intro e; simp [List.foldl_nil]
  | cons m ms ih => intro e; simp [List.foldl_cons, ih, moduleChain]

/-- C5: callee resolution.  A bare identifier callee resolves to that
identifier with no module; an attribute chain ending in `f` over a plain
identifier root resolves to `function = f` and `module` the dot-joined
names before `f` in root-to-leaf order; when the chain root is not a
plain identifier, `function` is still resolved but `module` stays
absent. -/
theorem c5_callee_resolution :
    (∀ id, resolve_callee (.Name id) = (some id, none)) ∧
    (∀ a mids f, resolve_callee (mkChain (.Name a) mids f) =
      (some f, some (String.intercalate "." (a :: mids)))) ∧
    (∀ root mids f, notNameOrAttribute root = true →
      resolve_callee (mkChain root mids f) = (some f, none)) := by
  refine ⟨fun id => rfl, fun a mids f => ?_, fun root mids f hroot => ?_⟩
  · simp [mkChain, resolve_callee, moduleChain_foldl, moduleChain]
  · have hchain : moduleChain root = ([], root) := by
      cases root
      all_goals try simp [moduleChain]
      all_goals simp [notNameOrAttribute] at hroot
    have : moduleChain (mids.foldl Expr.Attribute root) = (mids, root) := by
      rw [moduleChain_foldl, hchain]; simp
    cases root <;> simp [notNameOrAttribute] at hroot <;>
      simp [mkChain, resolve_callee, this]

/-- C5 witness: `g().upload(...)` — the chain root is itself a call, so
the function name resolves but the module stays absent. -/
theorem c5_witness :
    resolve_callee (mkChain (.Call (.Name "g") [] [] 1 0) [] "upload") = (some "upload", none) :=
  c5_callee_resolution.2.2 (.Call (.Name "g") [] [] 1 0) [] "upload" rfl

/-- Every node of the initial worklist appears in the breadth-first
enumeration. -/
theorem walkNodes_mem : ∀ q n, n ∈ q → n ∈ walkNodes q := by
  intro q
  induction q using walkNodes.induct with
  | case1 => intro n h; simp at h
  | case2 m rest ih =>
    intro n h
    rw [walkNodes]
    rcases List.mem_cons.mp h with h1 | h2
    · subst h1; exact List.mem_cons_self _ _
    · exact List.mem_cons_of_mem m (ih n (List.mem_append_left _ h2))

/-- A record contributed by a walked node belongs to the collected list
of imports. -/
theorem imports_foldr_mem : ∀ (L : List Node) n r, n ∈ L → r ∈ importsOfNode n →
    r ∈ L.foldr (fun n acc => importsOfNode n ++ acc) [] := by
  intro L
  induction L with
  | nil => intro n r h; simp at h
  | cons m rest ih =>
    intro n r h hr
    rcases List.mem_cons.mp h with h1 | h2
    · subst h1; exact List.mem_append_left _ hr
    · exact List.mem_append_right _ (ih n r h2 hr)

/-- C9: a `from M import a, b, c` statement produces exactly one
ImportRecord — module `M` (or the empty string when the statement has no
explicit module), the imported names in source order, the empty alias,
and the statement line — and that record appears in the imports
extracted from any module containing the statement. -/
theorem c9_from_import_record :
    (∀ m names lineno, importsOfNode (.ofStmt (.ImportFrom m names lineno)) =
      [⟨m.getD "", names.map Prod.fst, "", lineno⟩]) ∧
    (∀ tree m names lineno, Stmt.ImportFrom m names lineno ∈ tree.body →
      (⟨m.getD "", names.map Prod.fst, "", lineno⟩ : ImportRecord) ∈ extract_imports tree) := by
  refine ⟨fun m names lineno => rfl, fun tree m names lineno h => ?_⟩
  have hnode : Node.ofStmt (.ImportFrom m names lineno) ∈ walk tree := by
    exact walkNodes_mem _ _ (List.mem_map_of_mem Node.ofStmt h)
  exact imports_foldr_mem (walk tree) (.ofStmt (.ImportFrom m names lineno)) _ hnode
    (by simp [importsOfNode])

/-- C9 witness: scenario A, `from pkg.storage import upload, download`
on line 1. -/
theorem c9_witness :
    (⟨"pkg.storage", ["upload", "download"], "", 1⟩ : ImportRecord) ∈
      extract_imports scenarioATree := by
  have h := c9_from_import_record.2 scenarioATree (some "pkg.storage")
    [("upload", none), ("download", none)] 1 (by simp [scenarioATree])
  simpa using h

/-- The collection loop appends exactly one record per call node of its
worklist. -/
theorem calls_from_length : ∀ (sl : List String) (L : List Node) acc out,
    calls_from sl L acc = .ok out →
    out.length = acc.length + L.countP (fun n => isCallNode n) := by
  intro sl L
  induction L with
  | nil => intro acc out h; simp [calls_from] at h; simp [h.symm]
  | cons n rest ih =>
    intro acc out h
    cases n with
    | ofStmt s =>
      simp only [calls_from] at h
      have := ih acc out h
      simp [List.countP_cons, isCallNode, this]
    | ofKeyword kw =>
      simp only [calls_from] at h
      have := ih acc out h
      simp [List.countP_cons, isCallNode, this]
    | ofExpr e =>
      cases e with
      | Call func args keywords lineno col_offset =>
        simp only [calls_from] at h
        cases hcr : call_record func args keywords lineno col_offset sl with
        | error exc => rw [hcr] at h; simp at h
        | ok ci =>
          rw [hcr] at h
          have := ih (acc ++ [ci]) out h
          simp [List.countP_cons, isCallNode, this]
          omega
      | Constant v =>
        simp only [calls_from] at h
        have := ih acc out h
        simp [List.countP_cons, isCallNode, this]
      | Str s =>
        simp only [calls_from] at h
        have := ih acc out h
        simp [List.countP_cons, isCallNode, this]
      | Num n =>
        simp only [calls_from] at h
        have := ih acc out h
        simp [List.countP_cons, isCallNode, this]
      | NameConstant v =>
        simp only [calls_from] at h
        have := ih acc out h
        simp [List.countP_cons, isCallNode, this]
      | Name id =>
        simp only [calls_from] at h
        have := ih acc out h
        simp [List.countP_cons, isCallNode, this]
      | Attribute v attr =>
        simp only [calls_from] at h
        have := ih acc out h
        simp [List.countP_cons, isCallNode, this]
      | ListLit elts =>
        simp only [calls_from] at h
        have := ih acc out h
        simp [List.countP_cons, isCallNode, this]
      | DictLit keys values =>
        simp only [calls_from] at h
        have := ih acc out h
        simp [List.countP_cons, isCallNode, this]
      | Other children =>
        simp only [calls_from] at h
        have := ih acc out h
        simp [List.countP_cons, isCallNode, this]

/-- C8: every call-expression node anywhere in the tree produces its own
record — a successful extraction returns exactly one record per call node
of the walk — and the input `f(g(1))` yields exactly two records, one for
`f` (whose nested-call argument normalizes to unknown) and one for `g`. -/
theorem c8_nested_calls :
    (∀ tree source_lines cs, extract_calls tree source_lines = .ok cs →
      cs.length = (walk tree).countP (fun n => isCallNode n)) ∧
    extract_calls nestedCallTree ["f(g(1))"] = .ok
      [⟨1, 0, some "f", none, [(some "arg_0", ("unknown", .pnone))], some "f(g(1))"⟩,
       ⟨1, 2, some "g", none, [(some "arg_0", ("number", .pint 1))], some "f(g(1))"⟩] := by
  constructor
  · intro tree source_lines cs h
    have := calls_from_length source_lines (walk tree) [] cs h
    simpa using this
  · simp [extract_calls, walk, walkNodes, nodeChildren, exprChildren, stmtChildren,
      nestedCallTree, calls_from, call_record, build_arguments, add_positional, add_keywords,
      pyInsert, extract_value, resolve_callee, moduleChain, get_value_type, constToVal]
    decide

/-- C8 witness: the two records of `f(g(1))` count exactly the call nodes
of its walk. -/
theorem c8_witness :
    ([⟨1, 0, some "f", none, [(some "arg_0", ("unknown", .pnone))], some "f(g(1))"⟩,
      ⟨1, 2, some "g", none, [(some "arg_0", ("number", .pint 1))], some "f(g(1))"⟩] :
        List CallInfo).length =
      (walk nestedCallTree).countP (fun n => isCallNode n) :=
  c8_nested_calls.1 nestedCallTree ["f(g(1))"] _ c8_nested_calls.2

/-- Every exception the value normalizer can raise is the `TypeError` of
an unhashable dictionary key. -/
theorem extract_value_error_name :
    ∀ e exc, extract_value e = .error exc → exc.ename = "TypeError" := by
  refine fun e =>
    extract_value.induct
      (fun e => ∀ exc, extract_value e = .error exc → exc.ename = "TypeError")
      (fun ks vs acc => ∀ exc, extract_dict_items ks vs acc = .error exc →
        exc.ename = "TypeError")
      (fun es => ∀ exc, extract_value_list es = .error exc → exc.ename = "TypeError")
      ?_ ?_ ?_ ?_ ?_ ?_ ?_ ?_ ?_ ?_ ?_ ?_ ?_ ?_ ?_ ?_ ?_ ?_ ?_ ?_ ?_ ?_ e
  all_goals intros
  all_goals try simp_all [extract_value, extract_value_list, extract_dict_items]
  case refine_15 =>
    rename_i k? ks v vs acc exc0 hx ih
    intro exc h
    cases k? <;> simp_all [extract_dict_items]
  case refine_16 =>
    rename_i k? ks v vs acc kv hok exc0 hv ihk ihname
    intro exc h
    cases k? <;> simp_all [extract_dict_items]
  case refine_17 =>
    rename_i k? ks v vs acc kv hok v2 hv hhash ihk ihrest
    intro exc h
    cases k? with
    | none =>
      simp_all [extract_dict_items, hashable]
      subst hok
      exact ihrest exc h
    | some k =>
      simp_all [extract_dict_items, hashable]
  case refine_18 =>
    rename_i k? ks v vs acc kv hok v2 hv hhash ihk
    intro exc h
    cases k? with
    | none =>
      simp_all [extract_dict_items]
      subst hok
      simp [hashable] at hhash
    | some k =>
      simp_all [extract_dict_items]
      rw [← h]

/-- C3 counterexample: on the mapping literal with a list-literal key
(the argument node of `f({[]: 2})`) the normalizer does not return a
TypedValue — it raises the `TypeError` of the unhashable key, refuting
totality as claimed. -/
theorem c3_counterexample_unhashable_key :
    extract_value (.DictLit [some (.ListLit [])] [.Constant (.cint 2)]) =
      .error ⟨"TypeError", "unhashable type: list"⟩ := by
  simp [extract_value, extract_dict_items, extract_value_list, hashable, py_type_name]

/-- C3 amended: the Value Normalizer is total except on mapping literals
containing a key whose normalized payload is unhashable (a list or dict),
where it raises — and every fault it can raise is that `TypeError`.  For
every unrecognized node shape (attribute accesses, calls, and all other
expressions) it returns the default record with kind unknown and payload
none. -/
theorem c3_normalizer_totality :
    (∀ e exc, extract_value e = .error exc → exc.ename = "TypeError") ∧
    (∀ v a, extract_value (.Attribute v a) = .ok ("unknown", .pnone)) ∧
    (∀ f args kws l c, extract_value (.Call f args kws l c) = .ok ("unknown", .pnone)) ∧
    (∀ children, extract_value (.Other children) = .ok ("unknown", .pnone)) := by
  refine ⟨extract_value_error_name, ?_, ?_, ?_⟩ <;> intros <;> simp [extract_value]

/-- C3 witness: the fault raised on the list-keyed mapping literal is
indeed a `TypeError`. -/
theorem c3_witness :
    (⟨"TypeError", "unhashable type: list"⟩ : PyExc).ename = "TypeError" :=
  c3_normalizer_totality.1 (.DictLit [some (.ListLit [])] [.Constant (.cint 2)]) _
    (by simp [extract_value, extract_dict_items, extract_value_list, hashable, py_type_name])

/-- Inserting a fresh key into the arguments dictionary appends. -/
theorem pyInsert_fresh : ∀ (m : List (Option String × TV)) k v,
    (∀ p ∈ m, p.1 ≠ k) → pyInsert m k v = m ++ [(k, v)] := by
  intro m k v h
  have hany : m.any (fun p => p.1 == k) = false := by
    rw [List.any_eq_false]
    intro p hp
    simpa using h p hp
  unfold pyInsert
  rw [hany]
  simp

/-- Every entry of the dictionary after an insertion is an old entry or
the inserted pair. -/
theorem mem_pyInsert : ∀ (m : List (Option String × TV)) k v p,
    p ∈ pyInsert m k v → p ∈ m ∨ p = (k, v) := by
  intro m k v p hp
  unfold pyInsert at hp
  by_cases hc : m.any (fun p => p.1 == k) = true
  · rw [if_pos hc] at hp
    rcases List.mem_map.mp hp with ⟨q, hq, hEq⟩
    by_cases hqk : (q.1 == k) = true
    · right; rw [if_pos hqk] at hEq; exact hEq.symm
    · left; rw [if_neg (by simp_all)] at hEq; exact hEq ▸ hq
  · rw [if_neg hc] at hp
    rcases List.mem_append.mp hp with h1 | h2
    · left; exact h1
    · right; simpa using h2

/-- The keys produced by the positional loop. -/
theorem positional_entries_keys : ∀ (args : List Expr) (vg : Expr → TV) (i : Nat),
    (positional_entries vg i args).map Prod.fst = posKeys i args := by
  intro args
  induction args with
  | nil => intro vg i; simp [positional_entries, posKeys]
  | cons a rest ih => intro vg i; simp [positional_entries, posKeys, ih]

/-- The positional loop adds one entry per positional argument. -/
theorem positional_entries_length : ∀ (args : List Expr) (vg : Expr → TV) (i : Nat),
    (positional_entries vg i args).length = args.length := by
  intro args
  induction args with
  | nil => intro vg i; simp [positional_entries]
  | cons a rest ih => intro vg i; simp [positional_entries, ih]

/-- The positional loop appends its entries in argument order when the
generated keys are fresh and pairwise distinct. -/
theorem add_positional_spec : ∀ (args : List Expr) (acc : List (Option String × TV))
    (i : Nat) (vg : Expr → TV),
    (∀ a ∈ args, extract_value a = .ok (vg a)) →
    (∀ k ∈ posKeys i args, k ∉ acc.map Prod.fst) →
    (posKeys i args).Nodup →
    add_positional acc i args = .ok (acc ++ positional_entries vg i args) := by
  intro args
  induction args with
  | nil => intro acc i vg hv hfresh hnodup; simp [add_positional, positional_entries]
  | cons a rest ih =>
    intro acc i vg hv hfresh hnodup
    have hkey : ∀ p ∈ acc, p.1 ≠ some ("arg_" ++ toString i) := by
      intro p hp hcontra
      exact hfresh (some ("arg_" ++ toString i)) (by simp [posKeys])
        (hcontra ▸ List.mem_map_of_mem Prod.fst hp)
    simp only [add_positional, hv a (List.mem_cons_self a rest),
      pyInsert_fresh acc _ _ hkey]
    have hfresh2 : ∀ k ∈ posKeys (i + 1) rest,
        k ∉ (acc ++ [(some ("arg_" ++ toString i), vg a)]).map Prod.fst := by
      intro k hk
      simp only [List.map_append, List.mem_append]
      rintro (h1 | h2)
      · exact hfresh k (by simp [posKeys, hk]) h1
      · have hni : some ("arg_" ++ toString i) ∉ posKeys (i + 1) rest := by
          have := hnodup
          simp [posKeys] at this
          exact this.1
        simp at h2
        exact hni (h2 ▸ hk)
    have hnodup2 : (posKeys (i + 1) rest).Nodup := by
      have := hnodup
      simp [posKeys] at this
      exact this.2
    have hrec := ih (acc ++ [(some ("arg_" ++ toString i), vg a)]) (i + 1) vg
      (fun b hb => hv b (List.mem_cons_of_mem a hb)) hfresh2 hnodup2
    rw [hrec]
    simp [positional_entries]

/-- The keyword loop appends its entries in source order when the keyword
names are fresh and pairwise distinct. -/
theorem add_keywords_spec : ∀ (kws : List (Option String × Expr))
    (acc : List (Option String × TV)) (vf : Option String × Expr → TV),
    (∀ p ∈ kws, extract_value p.2 = .ok (vf p)) →
    (∀ p ∈ kws, p.1 ∉ acc.map Prod.fst) →
    (kws.map Prod.fst).Nodup →
    add_keywords acc kws = .ok (acc ++ keyword_entries vf kws) := by
  intro kws
  induction kws with
  | nil => intro acc vf hv hfresh hnodup; simp [add_keywords, keyword_entries]
  | cons p rest ih =>
    intro acc vf hv hfresh hnodup
    have hkey : ∀ q ∈ acc, q.1 ≠ p.1 := by
      intro q hq hcontra
      exact hfresh p (List.mem_cons_self p rest)
        (hcontra ▸ List.mem_map_of_mem Prod.fst hq)
    obtain ⟨k, e⟩ := p
    simp only [add_keywords, hv (k, e) (List.mem_cons_self _ rest),
      pyInsert_fresh acc _ _ hkey]
    have hfresh2 : ∀ q ∈ rest, q.1 ∉ (acc ++ [(k, vf (k, e))]).map Prod.fst := by
      intro q hq
      simp only [List.map_append, List.mem_append]
      rintro (h1 | h2)
      · exact hfresh q (List.mem_cons_of_mem _ hq) h1
      · have := hnodup
        simp at this
        obtain ⟨q1, q2⟩ := q
        simp at h2
        subst h2
        exact this.1 q2 hq
    have hnodup2 : (rest.map Prod.fst).Nodup := by
      have := hnodup
      simp at this
      exact this.2
    have hrec := ih (acc ++ [(k, vf (k, e))]) vf
      (fun q hq => hv q (List.mem_cons_of_mem _ hq)) hfresh2 hnodup2
    rw [hrec]
    simp [keyword_entries]

/-- C6 counterexample: in `f(1, arg_0=2)` the keyword literally named
`arg_0` lands on the same key as the first positional argument and
silently overwrites it — the final mapping holds one entry, not one per
positional argument plus one per distinct keyword. -/
theorem c6_counterexample_keyword_overwrites :
    extract_calls collidingKwTree ["f(1, arg_0=2)"] = .ok [collidingKwRecord] ∧
    collidingKwRecord.arguments.length = 1 := by
  have harg : ("arg_" ++ toString 0 : String) = "arg_0" := by decide
  have hstrip : py_strip "f(1, arg_0=2)" = "f(1, arg_0=2)" := by decide
  constructor
  · simp [extract_calls, walk, walkNodes, nodeChildren, exprChildren, stmtChildren,
      collidingKwTree, collidingKwRecord, calls_from, call_record, build_arguments,
      add_positional, add_keywords, pyInsert, extract_value, resolve_callee, moduleChain,
      get_value_type, constToVal, harg, hstrip, py_is_none, py_isinstance_bool,
      py_isinstance_str, py_isinstance_int_or_float]
  · simp [collidingKwRecord]

/-- C6 amended: positional entries (keys `arg_i`) and keyword entries
share one mapping with last-write-wins semantics, so a keyword literally
named `arg_i` overwrites the positional entry.  When no keyword name
collides with a positional key, the keyword names are pairwise distinct,
and the positional keys are pairwise distinct, the final mapping holds
the positional entries in argument order followed by the keyword entries,
one entry per positional argument plus one per distinct keyword. -/
theorem c6_arguments_mapping : ∀ (args : List Expr) (kws : List (Option String × Expr))
    (vg : Expr → TV) (vf : Option String × Expr → TV),
    (∀ a ∈ args, extract_value a = .ok (vg a)) →
    (∀ p ∈ kws, extract_value p.2 = .ok (vf p)) →
    (posKeys 0 args).Nodup →
    (kws.map Prod.fst).Nodup →
    (∀ p ∈ kws, p.1 ∉ posKeys 0 args) →
    build_arguments args kws =
      .ok (positional_entries vg 0 args ++ keyword_entries vf kws) ∧
    (positional_entries vg 0 args ++ keyword_entries vf kws).length =
      args.length + kws.length := by
  intro args kws vg vf hargs hkws hposnodup hkwnodup hdisj
  have hpos := add_positional_spec args [] 0 vg hargs (by simp) hposnodup
  have hkw := add_keywords_spec kws (positional_entries vg 0 args) vf hkws
    (by
      intro p hp
      rw [positional_entries_keys]
      exact hdisj p hp)
    hkwnodup
  constructor
  · unfold build_arguments
    rw [hpos]
    simpa using hkw
  · simp [keyword_entries, positional_entries_length]

/-- C6 witness: `f(1, b=2)` — no key collision, so the mapping has the
positional entry followed by the keyword entry, two entries in total. -/
theorem c6_witness :
    build_arguments [.Constant (.cint 1)] [(some "b", .Constant (.cint 2))] =
      .ok [(some "arg_0", ("number", .pint 1)), (some "b", ("number", .pint 2))] ∧
    ([(some "arg_0", ("number", .pint 1)), (some "b", ("number", .pint 2))] :
      List (Option String × TV)).length = 1 + 1 := by
  have h := c6_arguments_mapping [.Constant (.cint 1)] [(some "b", .Constant (.cint 2))]
    (fun _ => ("number", .pint 1)) (fun _ => ("number", .pint 2))
    (by intro a ha; simp at ha; subst ha
        simp [extract_value, get_value_type, constToVal, py_is_none, py_isinstance_bool,
          py_isinstance_str, py_isinstance_int_or_float])
    (by intro p hp; simp at hp; subst hp
        simp [extract_value, get_value_type, constToVal, py_is_none, py_isinstance_bool,
          py_isinstance_str, py_isinstance_int_or_float])
    (by simp [posKeys])
    (by simp)
    (by intro p hp; simp at hp; subst hp; simp [posKeys]; decide)
  constructor
  · have := h.1
    simpa [positional_entries, keyword_entries] using this
  · simp

/-- Processing one more keyword at the end of the loop inserts its
extracted value under its key. -/
theorem add_keywords_snoc : ∀ (kws : List (Option String × Expr))
    (acc m : List (Option String × TV)) (k : Option String) (e : Expr) (v : TV),
    add_keywords acc kws = .ok m → extract_value e = .ok v →
    add_keywords acc (kws ++ [(k, e)]) = .ok (pyInsert m k v) := by
  intro kws
  induction kws with
  | nil =>
    intro acc m k e v hm hv
    simp [add_keywords] at hm
    subst hm
    simp [add_keywords, hv]
  | cons p rest ih =>
    intro acc m k e v hm hv
    obtain ⟨k0, e0⟩ := p
    cases he0 : extract_value e0 with
    | error exc => simp only [add_keywords, he0] at hm; simp at hm
    | ok v0 =>
      simp only [add_keywords, he0] at hm ⊢
      exact ih (pyInsert acc k0 v0) m k e v hm hv

/-- Keys produced by the positional loop are never the `None` key. -/
theorem add_positional_keys_ne_none : ∀ (args : List Expr)
    (acc m : List (Option String × TV)) (i : Nat),
    add_positional acc i args = .ok m → (∀ p ∈ acc, p.1 ≠ none) →
    ∀ p ∈ m, p.1 ≠ none := by
  intro args
  induction args with
  | nil =>
    intro acc m i hm hacc
    simp [add_positional] at hm
    exact hm ▸ hacc
  | cons a rest ih =>
    intro acc m i hm hacc
    cases ha : extract_value a with
    | error exc => simp only [add_positional, ha] at hm; simp at hm
    | ok v =>
      simp only [add_positional, ha] at hm
      refine ih _ m (i + 1) hm ?_
      intro p hp
      rcases mem_pyInsert _ _ _ p hp with h1 | h2
      · exact hacc p h1
      · simp [h2]

/-- The keyword loop preserves the absence of a key from the mapping when
no processed keyword uses it. -/
theorem add_keywords_keys_ne_none : ∀ (kws : List (Option String × Expr))
    (acc m : List (Option String × TV)),
    add_keywords acc kws = .ok m → (∀ p ∈ acc, p.1 ≠ none) →
    (∀ p ∈ kws, p.1 ≠ none) → ∀ p ∈ m, p.1 ≠ none := by
  intro kws
  induction kws with
  | nil =>
    intro acc m hm hacc hkws
    simp [add_keywords] at hm
    exact hm ▸ hacc
  | cons p rest ih =>
    intro acc m hm hacc hkws
    obtain ⟨k0, e0⟩ := p
    cases he0 : extract_value e0 with
    | error exc => simp only [add_keywords, he0] at hm; simp at hm
    | ok v0 =>
      simp only [add_keywords, he0] at hm
      refine ih _ m hm ?_ (fun q hq => hkws q (List.mem_cons_of_mem _ hq))
      intro q hq
      rcases mem_pyInsert _ _ _ q hq with h1 | h2
      · exact hacc q h1
      · rw [h2]
        exact hkws (k0, e0) (List.mem_cons_self _ rest)

/-- Looking up a key that occurs only as the appended last entry returns
that entry. -/
theorem pyLookup_append_last : ∀ (m : List (Option String × TV)) (k : Option String) (v : TV),
    (∀ p ∈ m, p.1 ≠ k) → pyLookup (m ++ [(k, v)]) k = some v := by
  intro m k v
  induction m with
  | nil => intro h; simp [pyLookup, List.find?]
  | cons q rest ih =>
    intro h
    have hq : (q.1 == k) = false := by
      simpa using h q (List.mem_cons_self q rest)
    simp only [List.cons_append, pyLookup, List.find?, hq]
    exact ih (fun p hp => h p (List.mem_cons_of_mem q hp))

/-- C10: a double-starred argument (a keyword entry whose name is absent)
does not break extraction: the arguments mapping gains an entry under the
`None` key holding the normalized value of the starred expression, and
looking up the `None` key finds it. -/
theorem c10_double_star_argument : ∀ (args : List Expr) (kws : List (Option String × Expr))
    (e : Expr) (m : List (Option String × TV)) (v : TV),
    (∀ p ∈ kws, p.1 ≠ none) →
    build_arguments args kws = .ok m →
    extract_value e = .ok v →
    build_arguments args (kws ++ [(none, e)]) = .ok (m ++ [(none, v)]) ∧
    pyLookup (m ++ [(none, v)]) none = some v := by
  intro args kws e m v hkw hb hv
  unfold build_arguments at hb ⊢
  cases hpos : add_positional [] 0 args with
  | error exc => rw [hpos] at hb; simp at hb
  | ok m0 =>
    rw [hpos] at hb
    simp only at hb
    have hm0 : ∀ p ∈ m0, p.1 ≠ none :=
      add_positional_keys_ne_none args [] m0 0 hpos (by simp)
    have hmnone : ∀ p ∈ m, p.1 ≠ none :=
      add_keywords_keys_ne_none kws m0 m hb hm0 hkw
    have hsnoc := add_keywords_snoc kws m0 m none e v hb hv
    rw [pyInsert_fresh m none v hmnone] at hsnoc
    exact ⟨hsnoc, pyLookup_append_last m none v hmnone⟩

/-- C10 witness: `f(**kw)` — the arguments mapping is exactly the
`None`-keyed entry holding the variable reference `kw`. -/
theorem c10_witness :
    build_arguments [] [(none, .Name "kw")] = .ok [(none, ("variable", .pstr "kw"))] ∧
    pyLookup [(none, ("variable", .pstr "kw"))] none = some ("variable", .pstr "kw") := by
  have h := c10_double_star_argument [] [] (.Name "kw") [] ("variable", .pstr "kw")
    (by simp) (by simp [build_arguments, add_positional, add_keywords])
    (by simp [extract_value])
  simpa using h
